import Mathlib

/-!
Shallow embedding of the FitGenius fitness-tracking client's core logic:
the session cache with stable key hashing (`services/geminiService.ts`),
the 429 retry loop (`callWithRetry`), the single-flight fetch guard
(`components/AnalysisReport.tsx`), the add-log merge-by-day reconciliation
(`App.tsx` / `handleAddLog`), the weight-trend computation
(`components/Auth.tsx`, `Dashboard`), and the MET-based calorie estimation
(`components/WorkoutLogger.tsx` and its variants).

JavaScript numbers are modelled as `ℚ` (integral counters as `ℤ`/`ℕ`),
signed 32-bit wrap-around (`|0`, `<<`) is explicit, exceptions are
`Except`/explicit outcome types, and the browser session storage is an
association list threaded through the cache operations.
-/

/-- One step of the substring test underlying `String.prototype.includes`:
does the first char list start with the second? -/
def startsWithL : List Char → List Char → Bool
  | _, [] => true
  | [], _ :: _ => false
  | a :: s, b :: p => a == b && startsWithL s p

/-- Here `containsL s p` models `s.includes(p)` on the characters of the strings. -/
def containsL : List Char → List Char → Bool
  | [], p => p.isEmpty
  | s@(_ :: rest), p => startsWithL s p || containsL rest p

/-- JavaScript `ToInt32`: wrap an integer to the signed 32-bit range,
as performed by `hash |= 0` and by the `<<` operator. -/
def toInt32 (n : ℤ) : ℤ := (n + 2147483648) % 4294967296 - 2147483648

/-- JavaScript `Math.round`: round half toward positive infinity. -/
def jround (q : ℚ) : ℤ := ⌊q + 1/2⌋

/-- One iteration of the `stableKey` hash loop
(`hash = ((hash << 5) - hash) + str.charCodeAt(i); hash |= 0;`).
`hash << 5` itself wraps to signed 32 bits before the subtraction. -/
def hashStep (h c : ℤ) : ℤ := toInt32 (toInt32 (h * 32) - h + c)

/-- The full rolling hash of `Cache.stableKey` over a serialized string,
starting from `hash = 0`. -/
def jsHash (s : String) : ℤ :=
  s.data.foldl (fun h ch => hashStep h (ch.toNat : ℤ)) 0

/-- Modelled from the spec: the hash as the spec words it, a polynomial
accumulation `hash = hash*31 + charCode` wrapped to signed 32-bit.
Stated separately from `jsHash` (which mirrors the shift form in the
source) so the two can be compared. -/
def specHash31 (s : String) : ℤ :=
  s.data.foldl (fun h ch => toInt32 (31 * h + (ch.toNat : ℤ))) 0

namespace Cache

/-- The browser `sessionStorage`: an association list from keys to the
stored strings. -/
abbrev Store := List (String × String)

/-- Model of `sessionStorage.getItem`. -/
def getItem (store : Store) (k : String) : Option String :=
  (List.find? (fun kv => kv.1 == k) store).map (·.2)

/-- Model of `Cache.get`: read `fg_cache_${key}`, parse it, and treat every failure
(missing entry, empty string — falsy in JS — or a `JSON.parse` exception,
modelled by the parser returning `none`) as a miss. The surrounding
`try/catch` in the source is the `none` result of `parse`. -/
def get (parse : String → Option V) (store : Store) (key : String) : Option V :=
  match getItem store ("fg_cache_" ++ key) with
  | none => none
  | some s => if s = "" then none else parse s

/-- Model of `Cache.set`: attempt the storage write; a failing `setItem` (quota
exceeded, modelled by `trySetItem` returning `none`) is swallowed and the
store is left unchanged. -/
def set (trySetItem : Store → String → String → Option Store)
    (store : Store) (key : String) (val : String) : Store :=
  match trySetItem store ("fg_cache_" ++ key) val with
  | some store' => store'
  | none => store

/-- Model of `Cache.stableKey`: serialize the payload (`JSON.stringify`, supplied as
the `json` argument), hash it with the rolling hash, and prepend the
prefix: `` `${prefix}_${hash}` ``. -/
def stableKey (pre : String) (json : α → String) (data : α) : String :=
  pre ++ "_" ++ toString (jsHash (json data))

end Cache

/-- A JavaScript error value as classified by `callWithRetry`:
`error?.message`, `error?.status`, `error?.code`. -/
structure JsError where
  message : String
  status : Option ℤ := none
  code : Option ℤ := none
  deriving DecidableEq, Repr

/-- The rate-limit classification in `callWithRetry`:
`errorMsg.includes('429') || error?.status === 429 || error?.code === 429`
(with `errorMsg = error?.message || ""`). -/
def is429 (e : JsError) : Bool :=
  containsL e.message.data "429".data || e.status == some 429 || e.code == some 429

/-- Outcome of an async call: fulfilled, rejected with an error value, or
rejected with `undefined` (the `throw lastError` after a zero-iteration
loop). -/
inductive RetryOutcome (α : Type) where
  | ok (a : α)
  | threw (e : JsError)
  | threwUndefined
  deriving DecidableEq, Repr

/-- The `for (let i = 0; i < maxRetries; i++)` loop of `callWithRetry`,
entered at attempt index `i`. The operation is modelled as a function from
the attempt index to that attempt's outcome; the pair returned is the
loop's outcome together with the number of times the operation was
invoked. A 429-classified failure on the last attempt (`i === maxRetries - 1`)
rethrows; a 429-classified failure earlier sleeps (irrelevant here) and
retries; any other failure rethrows at once. -/
def retryLoop (fn : ℕ → Except JsError α) (maxRetries i : ℕ) :
    RetryOutcome α × ℕ :=
  if i < maxRetries then
    match fn i with
    | .ok a => (.ok a, i + 1)
    | .error e =>
      if is429 e then
        if i = maxRetries - 1 then (.threw e, i + 1)
        else retryLoop fn maxRetries (i + 1)
      else (.threw e, i + 1)
  else (.threwUndefined, i)
termination_by maxRetries - i

/-- Model of `callWithRetry(fn, maxRetries)` from `services/geminiService.ts`. -/
def callWithRetry (fn : ℕ → Except JsError α) (maxRetries : ℕ) :
    RetryOutcome α × ℕ :=
  retryLoop fn maxRetries 0

/-- A strength or cardio set (`types.ts` / `WorkoutLogger` extensions):
cardio sets carry a duration and optional intensity parameters. -/
structure ExerciseSet where
  weight : ℚ
  reps : ℤ
  duration : Option ℤ := none
  speed : Option ℚ := none
  incline : Option ℚ := none
  level : Option ℤ := none
  resistance : Option ℤ := none
  deriving DecidableEq, Repr

/-- The `'strength' | 'cardio'` variant tag on an exercise. -/
inductive ExKind where
  | strength
  | cardio
  deriving DecidableEq, Repr

/-- Model of `ExerciseLog`: a named exercise with its sets and (for cardio) its
category id. -/
structure ExerciseLog where
  name : String
  type : ExKind
  cardioCategory : Option String := none
  sets : List ExerciseSet
  deriving DecidableEq, Repr

/-- Model of `WorkoutLog` from `types.ts`. The `date` is kept as its ISO string. -/
structure WorkoutLog where
  id : String
  date : String
  title : String
  duration : ℤ
  calories : ℤ
  notes : String
  exercises : List ExerciseLog
  deriving DecidableEq, Repr

/-- A `{date, weight}` sample of the profile's weight history. -/
structure WeightEntry where
  date : String
  weight : ℚ
  deriving DecidableEq, Repr

/-- Model of `UserProfile` from `types.ts` (goal and fitness level kept as their
string values; `weightHistory` is the optional field used by the
dashboard). -/
structure UserProfile where
  name : String
  age : ℤ
  weight : ℚ
  height : ℚ
  goal : String
  fitnessLevel : String
  weightHistory : Option (List WeightEntry) := none
  deriving DecidableEq, Repr

/-- The merged log built by `handleAddLog` when the incoming log falls on
an already-logged calendar day: durations and calories summed, exercise
lists concatenated (existing first), the incoming notes appended after a
`" | "` separator only when non-empty (JS truthiness of the notes string),
and every other field (`id`, `title`, `date`) spread from the existing
log. (`existing.duration || 0` in one source variant is the identity on
numeric durations.) -/
def mergeLogs (existing incoming : WorkoutLog) : WorkoutLog :=
  { existing with
    duration := existing.duration + incoming.duration
    calories := existing.calories + incoming.calories
    exercises := existing.exercises ++ incoming.exercises
    notes := existing.notes ++
      (if incoming.notes = "" then "" else " | " ++ incoming.notes) }

/-- The `findIndex`-then-replace step of `handleAddLog`: locate the first
log sharing the incoming log's calendar day (`new Date(d).toDateString()`,
abstracted as `dayOf`) and replace it by the merge; `none` when no log of
that day exists. -/
def mergeFirst (dayOf : String → String) (incoming : WorkoutLog) :
    List WorkoutLog → Option (List WorkoutLog)
  | [] => none
  | l :: rest =>
    if dayOf l.date = dayOf incoming.date then
      some (mergeLogs l incoming :: rest)
    else
      (mergeFirst dayOf incoming rest).map (l :: ·)

/-- The `setLogs` updater of `handleAddLog` (`App.tsx`): merge into the
first same-day log if one exists, otherwise prepend the incoming log. -/
def handleAddLog (dayOf : String → String) (incoming : WorkoutLog)
    (prevLogs : List WorkoutLog) : List WorkoutLog :=
  match mergeFirst dayOf incoming prevLogs with
  | some updated => updated
  | none => incoming :: prevLogs

/-- The one-log-per-calendar-day invariant: the calendar days of the log
list (under the day projection `dayOf`) are pairwise distinct. -/
def atMostOnePerDay (dayOf : String → String) (logs : List WorkoutLog) : Prop :=
  (logs.map fun l => dayOf l.date).Nodup

/-- Insert a weight entry into an (ascending) list, after every entry whose
timestamp is `≤` its own — the position a stable ascending
`sort((a, b) => time(a) - time(b))` gives it. -/
def insertByTime (timeOf : String → ℤ) (e : WeightEntry) :
    List WeightEntry → List WeightEntry
  | [] => [e]
  | x :: xs =>
    if timeOf x.date ≤ timeOf e.date then x :: insertByTime timeOf e xs
    else e :: x :: xs

/-- Model of `sortedWeightHistory` (`Dashboard` in `Auth.tsx`): the weight history
sorted ascending by `new Date(h.date).getTime()` (abstracted as `timeOf`),
stably. -/
def sortWeightHistory (timeOf : String → ℤ) (history : List WeightEntry) :
    List WeightEntry :=
  history.foldl (fun acc e => insertByTime timeOf e acc) []

/-- Model of `baselineWeight`: the first sorted entry's weight, or the current
weight itself when the history is empty. -/
def baselineWeight (timeOf : String → ℤ) (history : List WeightEntry)
    (current : ℚ) : ℚ :=
  match sortWeightHistory timeOf history with
  | [] => current
  | e :: _ => e.weight

/-- Model of `rawChange = currentWeight - baselineWeight`. -/
def rawChange (timeOf : String → ℤ) (history : List WeightEntry)
    (current : ℚ) : ℚ :=
  current - baselineWeight timeOf history current

/-- JavaScript `Number.prototype.toFixed(1)`: one decimal digit, rounding
ties toward the larger value. -/
def jsToFixed1 (q : ℚ) : String :=
  let n : ℤ := ⌊10 * q + 1/2⌋
  (if n < 0 then "-" else "") ++
    toString (n.natAbs / 10) ++ "." ++ toString (n.natAbs % 10)

/-- The total-change figure as the dashboard renders it:
`{rawChange > 0 ? '+' : ''}{rawChange.toFixed(1)}`. -/
def weightChangeStr (timeOf : String → ℤ) (history : List WeightEntry)
    (current : ℚ) : String :=
  (if rawChange timeOf history current > 0 then "+" else "") ++
    jsToFixed1 (rawChange timeOf history current)

/-- Model of `changeColor`: emerald (favorable) iff `rawChange <= 0`. -/
def changeColor (timeOf : String → ℤ) (history : List WeightEntry)
    (current : ℚ) : String :=
  if rawChange timeOf history current ≤ 0 then "text-emerald-500"
  else "text-rose-500"

/-- The `CARDIO_CATEGORIES` base MET lookup with the `|| CARDIO_CATEGORIES[5]`
fallback (`WorkoutLogger.tsx`, segmented variant). -/
def baseMET (cat : Option String) : ℚ :=
  match cat with
  | some "running" => 8
  | some "incline" => 6
  | some "stairmaster" => 9
  | some "rowing" => 7
  | some "elliptical" => 5.5
  | some "other" => 5
  | _ => 5

/-- The intensity-adjusted MET of a cardio exercise: the category's base
MET, bumped by `(speed - 8) * 0.5`, `incline * 0.4`, or `level * 0.3` when
the corresponding parameter is present and non-zero (JS truthiness guards
`s.speed`, `s.incline`, `s.level`). -/
def cardioMET (cat : Option String) (s : ExerciseSet) : ℚ :=
  let met := baseMET cat
  let met := if cat = some "running" then
      match s.speed with
      | some sp => if sp = 0 then met else met + (sp - 8) * 0.5
      | none => met
    else met
  let met := if cat = some "incline" then
      match s.incline with
      | some inc => if inc = 0 then met else met + inc * 0.4
      | none => met
    else met
  if cat = some "stairmaster" then
    match s.level with
    | some lv => if lv = 0 then met else met + (lv : ℚ) * 0.3
    | none => met
  else met

/-- Active calories and active minutes contributed by one exercise in the
segmented estimator: cardio burns its set's duration at the adjusted MET;
a strength exercise burns `1.5` assumed active minutes per set at MET
`4.5` (`STRENGTH_SET_DURATION`, `STRENGTH_MET`). `s.duration || 0` is the
`getD 0`. -/
def activeOf (w : ℚ) (ex : ExerciseLog) : ℚ × ℚ :=
  match ex.type with
  | .cardio =>
    let s := ex.sets.headD { weight := 0, reps := 0 }
    let met := cardioMET ex.cardioCategory s
    let d : ℚ := ((s.duration.getD 0 : ℤ) : ℚ)
    (met * w * (d / 60), d)
  | .strength =>
    let activeTime : ℚ := (ex.sets.length : ℚ) * 1.5
    (4.5 * w * (activeTime / 60), activeTime)

/-- The values `totalActiveCalories` and `totalActiveTime` accumulated over the
recorded exercises. -/
def activeTotals (w : ℚ) (exs : List ExerciseLog) : ℚ × ℚ :=
  exs.foldl (fun acc ex => (acc.1 + (activeOf w ex).1, acc.2 + (activeOf w ex).2))
    (0, 0)

/-- The segmented calorie estimate (`WorkoutLogger.tsx`, lines 293–345):
rest time `max(0, totalDuration - totalActiveTime)` charged at
`REST_MET = 2.5`, total rounded; with no exercises recorded, the flat
fallback `round(4.0 * weight * duration / 60)`. -/
def estimateSegmented (w : ℚ) (exs : List ExerciseLog) (dur : ℤ) : ℤ :=
  if exs = [] then
    jround (4 * w * ((dur : ℚ) / 60))
  else
    jround ((activeTotals w exs).1 +
      2.5 * w * (max 0 ((dur : ℚ) - (activeTotals w exs).2) / 60))

/-- The composition-dependent MET of the simple estimator variant
(`unnamed/part_001`, lines 44–69): pure cardio 8.5, pure strength 4.5,
mixed 6.5; with no exercises yet, 8.0 or 4.5 from the selected tab. -/
def simpleMET (exs : List ExerciseLog) (tab : ExKind) : ℚ :=
  if exs.length > 0 then
    if (exs.filter (fun e => e.type == ExKind.cardio)).length > 0 ∧
        (exs.filter (fun e => e.type == ExKind.strength)).length = 0 then 8.5
    else if (exs.filter (fun e => e.type == ExKind.strength)).length > 0 ∧
        (exs.filter (fun e => e.type == ExKind.cardio)).length = 0 then 4.5
    else if (exs.filter (fun e => e.type == ExKind.cardio)).length > 0 ∧
        (exs.filter (fun e => e.type == ExKind.strength)).length > 0 then 6.5
    else 5
  else if tab = ExKind.cardio then 8 else 4.5

/-- The simple estimate: `round(met * weight * duration / 60)`. -/
def estimateSimple (w : ℚ) (exs : List ExerciseLog) (tab : ExKind)
    (dur : ℤ) : ℤ :=
  jround (simpleMET exs tab * w * ((dur : ℚ) / 60))

/-- The first `WorkoutLogger` variant's estimate (lines 31–41): a flat
`round(5.0 * weight * duration / 60)`. -/
def estimateFirst (w : ℚ) (dur : ℤ) : ℤ :=
  jround (5 * w * ((dur : ℚ) / 60))

/-- The `WorkoutLogger` entry-form state relevant to calorie estimation:
the manual-override flag (`isManualCalorieRef`), the calorie field, and
the estimation inputs (duration, user weight, recorded exercises,
selected tab). -/
structure LoggerState where
  isManual : Bool
  calories : ℤ
  duration : ℤ
  userWeight : ℚ
  exercises : List ExerciseLog
  exType : ExKind
  deriving DecidableEq, Repr

/-- Events of the entry session: a manual edit of the calorie field (the
`onChange` handler sets `isManualCalorieRef.current = true`), changes to
the estimation inputs, and the firing of the (debounced) estimation
effect. -/
inductive LoggerEvent where
  | manualEdit (v : ℤ)
  | setDuration (v : ℤ)
  | setUserWeight (w : ℚ)
  | setExercises (es : List ExerciseLog)
  | setTab (t : ExKind)
  | autoEstimate
  deriving DecidableEq, Repr

/-- One transition of the manual-flag-guarded variants (`WorkoutLogger.tsx`
segmented variant and `unnamed/part_001`): the estimation effect
recomputes the calorie field only when the parsed duration is positive
and the manual flag is unset; nothing ever clears the flag. The concrete
estimator is a parameter so the one machine covers both flagged
variants. -/
def loggerStep (est : LoggerState → ℤ) (s : LoggerState) :
    LoggerEvent → LoggerState
  | .manualEdit v => { s with isManual := true, calories := v }
  | .setDuration v => { s with duration := v }
  | .setUserWeight w => { s with userWeight := w }
  | .setExercises es => { s with exercises := es }
  | .setTab t => { s with exType := t }
  | .autoEstimate =>
    if s.duration > 0 ∧ s.isManual = false then { s with calories := est s }
    else s

/-- One transition of the first `WorkoutLogger` variant (lines 31–41),
which has no manual-override flag: its effect recomputes the calorie
field from duration and weight whenever the duration is positive,
regardless of any earlier manual edit. -/
def loggerStepNoFlag (s : LoggerState) : LoggerEvent → LoggerState
  | .manualEdit v => { s with isManual := true, calories := v }
  | .setDuration v => { s with duration := v }
  | .setUserWeight w => { s with userWeight := w }
  | .setExercises es => { s with exercises := es }
  | .setTab t => { s with exType := t }
  | .autoEstimate =>
    if s.duration > 0 then
      { s with calories := estimateFirst s.userWeight s.duration }
    else s

/-- The single-flight guard of `AnalysisReport`: the busy flag
(`isFetchingRef`), the last successfully completed key
(`lastFetchedKeyRef`), and the held report state. -/
structure Guard (ρ : Type) where
  isFetching : Bool
  lastKey : Option String
  report : Option ρ
  deriving DecidableEq, Repr

/-- What one invocation of `fetchReport` does before any await: reuse the
held report, adopt a cache hit, skip because a fetch is in flight, or
start the underlying remote call. -/
inductive FetchAction where
  | reuseHeld
  | adoptCache
  | skipBusy
  | startCall
  deriving DecidableEq, Repr

/-- The synchronous prefix of `fetchReport` (`AnalysisReport.tsx`,
lines 22–78) for request key `K` given the cache's current answer for
`K`: (1) stop if the last completed key is `K` and a report is held;
(2) adopt a cache hit and record `K`; (3) skip if a fetch is in flight;
(4) otherwise lock the guard and issue the call. -/
def fetchBegin (g : Guard ρ) (K : String) (cached : Option ρ) :
    Guard ρ × FetchAction :=
  if g.lastKey = some K ∧ g.report.isSome then (g, .reuseHeld)
  else
    match cached with
    | some r => ({ g with report := some r, lastKey := some K }, .adoptCache)
    | none =>
      if g.isFetching then (g, .skipBusy)
      else ({ g with isFetching := true }, .startCall)

/-- The resumption of `fetchReport` after the awaited call settles: a
non-null result is stored and `K` recorded as last completed, a null
result only surfaces an error message; the `finally` clause clears the
busy flag either way. -/
def fetchComplete (g : Guard ρ) (K : String) (result : Option ρ) : Guard ρ :=
  match result with
  | some r => { g with report := some r, lastKey := some K, isFetching := false }
  | none => { g with isFetching := false }

/-- Number of underlying remote calls an action performs. -/
def callsOf (a : FetchAction) : ℕ :=
  if a = FetchAction.startCall then 1 else 0

/-- Model of `DailyPlan` from `types.ts`. -/
structure DailyPlan where
  day : String
  focus : String
  exercises : List String
  duration : ℤ
  notes : String
  deriving DecidableEq, Repr

/-- Model of `WorkoutPlan` from `types.ts`. -/
structure WorkoutPlan where
  title : String
  goal : String
  schedule : List DailyPlan
  deriving DecidableEq, Repr

/-- Model of `AIAdvice` from `types.ts`. -/
structure AIAdvice where
  summary : String
  strengths : List String
  improvements : List String
  nextStep : String
  deriving DecidableEq, Repr

/-- Model of `TrainingReport` from `types.ts` (nested records flattened). -/
structure TrainingReport where
  score : ℤ
  level : String
  consistency : ℤ
  variety : ℤ
  overload : ℤ
  execution : ℤ
  push : ℤ
  pull : ℤ
  legs : ℤ
  core : ℤ
  currentPhase : String
  currentPhaseDesc : String
  futureProjection : String
  futureProjectionDesc : String
  recommendations : List String
  deriving DecidableEq, Repr

/-- Model of `ExerciseInsight` from `types.ts`. -/
structure ExerciseInsight where
  exerciseName : String
  targetMuscles : List String
  technicalPoints : List String
  physiologicalPrinciple : String
  deriving DecidableEq, Repr

/-- The cache-key payload of `generateFitnessPlan`:
`{ goal, level, weight }`. -/
structure PlanPayload where
  goal : String
  level : String
  weight : ℚ
  deriving DecidableEq, Repr

/-- Model of `JSON.stringify` of a `PlanPayload` in source key order (field strings
assumed escape-free; rationals printed by `toString`). -/
def jsonOfPlanPayload (p : PlanPayload) : String :=
  "\x7b\"goal\":\"" ++ p.goal ++ "\",\"level\":\"" ++ p.level ++
    "\",\"weight\":" ++ toString p.weight ++ "\x7d"

/-- The cache-key payload of `analyzeWorkoutHistory`:
`{ logCount, lastDate, goal }`. -/
structure AnalysisPayload where
  logCount : ℕ
  lastDate : String
  goal : String
  deriving DecidableEq, Repr

/-- Model of `JSON.stringify` of an `AnalysisPayload` in source key order. -/
def jsonOfAnalysisPayload (p : AnalysisPayload) : String :=
  "\x7b\"logCount\":" ++ toString p.logCount ++ ",\"lastDate\":\"" ++
    p.lastDate ++ "\",\"goal\":\"" ++ p.goal ++ "\"\x7d"

/-- The cache-key payload of `generateTrainingReport` (also rebuilt by the
`AnalysisReport` component): `{ logCount, lastDate, age, goal }`. -/
structure ReportPayload where
  logCount : ℕ
  lastDate : String
  age : ℤ
  goal : String
  deriving DecidableEq, Repr

/-- Model of `JSON.stringify` of a `ReportPayload` in source key order. -/
def jsonOfReportPayload (p : ReportPayload) : String :=
  "\x7b\"logCount\":" ++ toString p.logCount ++ ",\"lastDate\":\"" ++
    p.lastDate ++ "\",\"age\":" ++ toString p.age ++ ",\"goal\":\"" ++
    p.goal ++ "\"\x7d"

/-- The shared shape of the four AI content requesters: return the cache
hit if any; otherwise run the remote operation (which resolves to the
parsed result, `none` when the response had no text, or rejects) under
`callWithRetry` with the default budget of 2, write a non-null result
through `Cache.set`, and convert any rejection to a `null` resolution —
the trailing `.catch(() => null)`. The promise's outcome is returned
together with the session store after the call. -/
def aiRequest (trySetItem : Cache.Store → String → String → Option Cache.Store)
    (serialize : V → String) (store : Cache.Store) (key : String)
    (cached : Option V) (fn : ℕ → Except JsError (Option V)) :
    RetryOutcome (Option V) × Cache.Store :=
  match cached with
  | some v => (.ok (some v), store)
  | none =>
    match callWithRetry fn 2 with
    | (.ok (some r), _) => (.ok (some r), Cache.set trySetItem store key (serialize r))
    | (.ok none, _) => (.ok none, store)
    | (.threw _, _) => (.ok none, store)
    | (.threwUndefined, _) => (.ok none, store)

/-- Model of `generateFitnessPlan` (`geminiService.ts`, lines 149–170): key
`stableKey('plan', { goal, level, weight })`, then the shared request
pipeline. -/
def generateFitnessPlan (parse : String → Option WorkoutPlan)
    (serialize : WorkoutPlan → String)
    (trySetItem : Cache.Store → String → String → Option Cache.Store)
    (store : Cache.Store) (profile : UserProfile)
    (fn : ℕ → Except JsError (Option WorkoutPlan)) :
    RetryOutcome (Option WorkoutPlan) × Cache.Store :=
  let cacheKey := Cache.stableKey "plan" jsonOfPlanPayload
    { goal := profile.goal, level := profile.fitnessLevel, weight := profile.weight }
  aiRequest trySetItem serialize store cacheKey
    (Cache.get parse store cacheKey) fn

/-- Model of `analyzeWorkoutHistory` (lines 172–195): resolves to `null` at once on
an empty log list; otherwise key
`stableKey('analysis', { logCount, lastDate, goal })` and the shared
pipeline. -/
def analyzeWorkoutHistory (parse : String → Option AIAdvice)
    (serialize : AIAdvice → String)
    (trySetItem : Cache.Store → String → String → Option Cache.Store)
    (store : Cache.Store) (logs : List WorkoutLog) (profile : UserProfile)
    (fn : ℕ → Except JsError (Option AIAdvice)) :
    RetryOutcome (Option AIAdvice) × Cache.Store :=
  if logs = [] then (.ok none, store)
  else
    let cacheKey := Cache.stableKey "analysis" jsonOfAnalysisPayload
      { logCount := logs.length, lastDate := ((logs.head?.map (·.date)).getD ""),
        goal := profile.goal }
    aiRequest trySetItem serialize store cacheKey
      (Cache.get parse store cacheKey) fn

/-- Model of `generateTrainingReport` (lines 197–221): resolves to `null` at once
on an empty log list; otherwise key
`stableKey('report', { logCount, lastDate, age, goal })` and the shared
pipeline. -/
def generateTrainingReport (parse : String → Option TrainingReport)
    (serialize : TrainingReport → String)
    (trySetItem : Cache.Store → String → String → Option Cache.Store)
    (store : Cache.Store) (logs : List WorkoutLog) (profile : UserProfile)
    (fn : ℕ → Except JsError (Option TrainingReport)) :
    RetryOutcome (Option TrainingReport) × Cache.Store :=
  if logs = [] then (.ok none, store)
  else
    let cacheKey := Cache.stableKey "report" jsonOfReportPayload
      { logCount := logs.length, lastDate := ((logs.head?.map (·.date)).getD ""),
        age := profile.age, goal := profile.goal }
    aiRequest trySetItem serialize store cacheKey
      (Cache.get parse store cacheKey) fn

/-- Model of `getExerciseInsight` (lines 223–244): fixed key
`insight_v2_${exerciseName}` and the shared pipeline. -/
def getExerciseInsight (parse : String → Option ExerciseInsight)
    (serialize : ExerciseInsight → String)
    (trySetItem : Cache.Store → String → String → Option Cache.Store)
    (store : Cache.Store) (exerciseName : String)
    (fn : ℕ → Except JsError (Option ExerciseInsight)) :
    RetryOutcome (Option ExerciseInsight) × Cache.Store :=
  let cacheKey := "insight_v2_" ++ exerciseName
  aiRequest trySetItem serialize store cacheKey
    (Cache.get parse store cacheKey) fn

/-- A promise outcome is a fulfillment (not a rejection). -/
def isFulfilled : RetryOutcome α → Bool
  | .ok _ => true
  | .threw _ => false
  | .threwUndefined => false

/-- Claim C1: for an operation that fails with a 429-classified error on
both of its attempts and `maxAttempts = 2`, `callWithRetry` invokes it
exactly twice and finally throws the second (last) rate-limit error; an
operation failing with a non-429 error is invoked exactly once and the
error propagates immediately; an attempt that succeeds has its result
returned (with the invocation count through that attempt). -/
theorem callWithRetry_spec :
    (∀ (α : Type) (fn : ℕ → Except JsError α) (e0 e1 : JsError),
       fn 0 = .error e0 → fn 1 = .error e1 →
       is429 e0 = true → is429 e1 = true →
       callWithRetry fn 2 = (.threw e1, 2)) ∧
    (∀ (α : Type) (fn : ℕ → Except JsError α) (e : JsError) (m : ℕ),
       fn 0 = .error e → is429 e = false → 1 ≤ m →
       callWithRetry fn m = (.threw e, 1)) ∧
    (∀ (α : Type) (fn : ℕ → Except JsError α) (a : α) (m i : ℕ),
       i < m → fn i = .ok a → retryLoop fn m i = (.ok a, i + 1)) := by
  refine ⟨?_, ?_, ?_⟩
  · intro α fn e0 e1 h0 h1 h429a h429b
    unfold callWithRetry
    rw [retryLoop]
    simp only [h0, h429a, Nat.lt_irrefl]
    norm_num
    rw [retryLoop]
    simp [h1, h429b]
  · intro α fn e m h0 h429 hm
    unfold callWithRetry
    rw [retryLoop, if_pos (by omega : 0 < m)]
    simp [h0, h429]
  · intro α fn a m i him hfi
    rw [retryLoop, if_pos him, hfi]

/-- Concrete instantiation of `callWithRetry_spec`. -/
theorem callWithRetry_spec_witness :
    ((fun _ => (Except.error { message := "http 429" } : Except JsError ℕ)) 0
        = Except.error { message := "http 429" }) ∧
    is429 { message := "http 429" } = true ∧
    callWithRetry (fun _ => (Except.error { message := "http 429" } : Except JsError ℕ)) 2 =
      (RetryOutcome.threw { message := "http 429" }, 2) :=
  ⟨rfl, by decide,
    callWithRetry_spec.1 ℕ _ { message := "http 429" } { message := "http 429" }
      rfl rfl (by decide) (by decide)⟩

/-- Claim C2: per guard instance and request key `K`, a second issue of the
same request before the first fetch resolves causes at most one underlying
remote call, and exactly one when the request is fresh (no held result for
`K`, cache miss, guard idle); the individual branches behave as described:
held result reused without a call, cache hit adopted with `K` recorded and
no call, busy guard skips (no enqueue), fresh request locks the guard and
starts the one call; a successful completion records `K`, stores the
result and clears the busy flag, after which a re-issue for `K` makes no
call. -/
theorem singleFlight_spec :
    (∀ (ρ : Type) (g : Guard ρ) (K : String) (cv : Option ρ),
       callsOf (fetchBegin g K cv).2 +
         callsOf (fetchBegin (fetchBegin g K cv).1 K cv).2 ≤ 1) ∧
    (∀ (ρ : Type) (g : Guard ρ) (K : String),
       g.isFetching = false → ¬(g.lastKey = some K ∧ g.report.isSome) →
       (fetchBegin g K none).2 = FetchAction.startCall ∧
       (fetchBegin (fetchBegin g K none).1 K none).2 = FetchAction.skipBusy) ∧
    (∀ (ρ : Type) (g : Guard ρ) (K : String) (cv : Option ρ),
       g.lastKey = some K → g.report.isSome →
       fetchBegin g K cv = (g, FetchAction.reuseHeld)) ∧
    (∀ (ρ : Type) (g : Guard ρ) (K : String) (r : ρ),
       ¬(g.lastKey = some K ∧ g.report.isSome) →
       fetchBegin g K (some r) =
         ({ g with report := some r, lastKey := some K }, FetchAction.adoptCache)) ∧
    (∀ (ρ : Type) (g : Guard ρ) (K : String),
       ¬(g.lastKey = some K ∧ g.report.isSome) → g.isFetching = true →
       fetchBegin g K none = (g, FetchAction.skipBusy)) ∧
    (∀ (ρ : Type) (g : Guard ρ) (K : String) (r : ρ) (cv : Option ρ),
       (fetchComplete g K (some r)).isFetching = false ∧
       (fetchComplete g K (some r)).lastKey = some K ∧
       (fetchComplete g K (some r)).report = some r ∧
       (fetchBegin (fetchComplete g K (some r)) K cv).2 = FetchAction.reuseHeld) := by
  refine ⟨?_, ?_, ?_, ?_, ?_, ?_⟩
  · intro ρ g K cv
    by_cases hHeld : (g.lastKey = some K ∧ g.report.isSome)
    · simp [fetchBegin, hHeld, callsOf]
    · cases cv with
      | some r => simp [fetchBegin, hHeld, callsOf]
      | none =>
        cases hBusy : g.isFetching with
        | true => simp [fetchBegin, hHeld, hBusy, callsOf]
        | false => simp [fetchBegin, hHeld, hBusy, callsOf]
  · intro ρ g K hIdle hHeld
    constructor
    · simp [fetchBegin, hHeld, hIdle]
    · simp [fetchBegin, hHeld, hIdle]
  · intro ρ g K cv hK hR
    simp [fetchBegin, hK, hR]
  · intro ρ g K r hHeld
    simp [fetchBegin, hHeld]
  · intro ρ g K hHeld hBusy
    simp [fetchBegin, hHeld, hBusy]
  · intro ρ g K r cv
    refine ⟨rfl, rfl, rfl, ?_⟩
    simp [fetchBegin, fetchComplete]

/-- Concrete instantiation of `singleFlight_spec`: a fresh request issued
twice yields one `startCall` and then a `skipBusy`. -/
theorem singleFlight_spec_witness :
    ((⟨false, none, none⟩ : Guard ℕ).isFetching = false) ∧
    ¬((⟨false, none, none⟩ : Guard ℕ).lastKey = some "k" ∧
      (⟨false, none, none⟩ : Guard ℕ).report.isSome) ∧
    ((fetchBegin (⟨false, none, none⟩ : Guard ℕ) "k" none).2 = FetchAction.startCall ∧
     (fetchBegin (fetchBegin (⟨false, none, none⟩ : Guard ℕ) "k" none).1 "k" none).2 =
       FetchAction.skipBusy) :=
  ⟨rfl, by decide,
    singleFlight_spec.2.1 ℕ ⟨false, none, none⟩ "k" rfl (by decide)⟩

/-- The shift-and-subtract step `((hash << 5) - hash) + c` with its `|0`
wrap equals the spec's `hash * 31 + c` wrapped to signed 32 bits. -/
theorem hashStep_eq31 (h c : ℤ) : hashStep h c = toInt32 (31 * h + c) := by
  unfold hashStep toInt32
  omega

/-- The whole rolling hash agrees with the spec's polynomial-accumulation
reading. -/
theorem jsHash_eq_specHash31 (s : String) : jsHash s = specHash31 s := by
  unfold jsHash specHash31
  exact List.foldl_ext _ _ 0 (fun a b _ => hashStep_eq31 a (b.toNat : ℤ))

/-- Claim C3: `stableKey` returns `"{prefix}_{hash}"` with `hash` the
polynomial accumulation `hash = hash*31 + charCode` over the canonical
serialization, wrapped to signed 32-bit; and payloads equal by (deep)
value always serialize and hash identically, so repeated calls and
value-equal payloads yield the identical key string. -/
theorem stableKey_spec :
    (∀ (α : Type) (pre : String) (json : α → String) (data : α),
       Cache.stableKey pre json data =
         pre ++ "_" ++ toString (specHash31 (json data))) ∧
    (∀ (pre : String) (p q : ReportPayload), p = q →
       Cache.stableKey pre jsonOfReportPayload p =
         Cache.stableKey pre jsonOfReportPayload q) := by
  constructor
  · intro α pre json data
    unfold Cache.stableKey
    rw [jsHash_eq_specHash31]
  · intro pre p q hpq
    rw [hpq]

/-- Concrete instantiation of `stableKey_spec`: the spec's spot-check
payload, hashed twice, yields the identical key string. -/
theorem stableKey_spec_witness :
    ({ logCount := 3, lastDate := "2024-01-01", age := 30, goal := "增肌" } :
        ReportPayload) =
      { logCount := 3, lastDate := "2024-01-01", age := 30, goal := "增肌" } ∧
    Cache.stableKey "report" jsonOfReportPayload
        { logCount := 3, lastDate := "2024-01-01", age := 30, goal := "增肌" } =
      Cache.stableKey "report" jsonOfReportPayload
        { logCount := 3, lastDate := "2024-01-01", age := 30, goal := "增肌" } :=
  ⟨rfl, stableKey_spec.2 "report" _ _ rfl⟩

/-- Claim C4: adding a log whose calendar day equals an existing log's day
replaces that log by a single merged entry — durations and calories
summed, exercises concatenated existing-first, notes joined with `" | "`
only when the incoming notes are non-empty, `id`/`title`/`date` retained
from the existing log; a log of a different day is prepended unchanged as
a separate head entry. -/
theorem handleAddLog_merge_spec :
    (∀ (dayOf : String → String) (existing incoming : WorkoutLog)
       (rest : List WorkoutLog),
       dayOf existing.date = dayOf incoming.date →
       handleAddLog dayOf incoming (existing :: rest) =
         { id := existing.id, date := existing.date, title := existing.title,
           duration := existing.duration + incoming.duration,
           calories := existing.calories + incoming.calories,
           notes := existing.notes ++
             (if incoming.notes = "" then "" else " | " ++ incoming.notes),
           exercises := existing.exercises ++ incoming.exercises } :: rest) ∧
    (∀ (dayOf : String → String) (existing incoming : WorkoutLog),
       dayOf existing.date ≠ dayOf incoming.date →
       handleAddLog dayOf incoming [existing] = [incoming, existing]) := by
  constructor
  · intro dayOf existing incoming rest h
    simp [handleAddLog, mergeFirst, h, mergeLogs]
  · intro dayOf existing incoming h
    simp [handleAddLog, mergeFirst, h]

/-- Concrete instantiation of `handleAddLog_merge_spec`: the spec's
spot-check logs (same calendar day) merge into `{duration 50, calories
300, exercises [A, B], notes "x | y"}`; with a different day the incoming
log becomes a separate head entry. -/
theorem handleAddLog_merge_spec_witness :
    ((fun s => s) "2024-03-01T08:00" = (fun s => s) "2024-03-01T08:00") ∧
    handleAddLog (fun s => s)
        { id := "2", date := "2024-03-01T08:00", title := "evening",
          duration := 20, calories := 100,
          notes := "y", exercises := [{ name := "B", type := ExKind.strength, sets := [] }] }
        [{ id := "1", date := "2024-03-01T08:00", title := "morning",
           duration := 30, calories := 200,
           notes := "x", exercises := [{ name := "A", type := ExKind.strength, sets := [] }] }] =
      [{ id := "1", date := "2024-03-01T08:00", title := "morning",
         duration := 50, calories := 300,
         notes := "x | y",
         exercises := [{ name := "A", type := ExKind.strength, sets := [] },
                       { name := "B", type := ExKind.strength, sets := [] }] }] := by
  refine ⟨rfl, ?_⟩
  have := handleAddLog_merge_spec.1 (fun s => s)
    { id := "1", date := "2024-03-01T08:00", title := "morning",
      duration := 30, calories := 200,
      notes := "x", exercises := [{ name := "A", type := ExKind.strength, sets := [] }] }
    { id := "2", date := "2024-03-01T08:00", title := "evening",
      duration := 20, calories := 100,
      notes := "y", exercises := [{ name := "B", type := ExKind.strength, sets := [] }] }
    [] rfl
  rw [this]
  decide

/-- The step `mergeFirst` finds no log exactly when no existing log shares the
incoming log's calendar day. -/
theorem mergeFirst_none_iff (dayOf : String → String) (incoming : WorkoutLog) :
    ∀ l : List WorkoutLog,
      mergeFirst dayOf incoming l = none ↔
        ∀ x ∈ l, dayOf x.date ≠ dayOf incoming.date := by
  intro l
  induction l with
  | nil => simp [mergeFirst]
  | cons a t ih =>
    by_cases h : dayOf a.date = dayOf incoming.date
    · simp [mergeFirst, h]
    · simp [mergeFirst, h, Option.map_eq_none, ih]

/-- A successful `mergeFirst` leaves the sequence of calendar days
unchanged: the merged entry keeps the existing log's date. -/
theorem mergeFirst_days (dayOf : String → String) (incoming : WorkoutLog) :
    ∀ (l r : List WorkoutLog), mergeFirst dayOf incoming l = some r →
      r.map (fun x => dayOf x.date) = l.map (fun x => dayOf x.date) := by
  intro l
  induction l with
  | nil => intro r hr; simp [mergeFirst] at hr
  | cons a t ih =>
    intro r hr
    by_cases h : dayOf a.date = dayOf incoming.date
    · simp [mergeFirst, h] at hr
      subst hr
      simp [mergeLogs]
    · simp [mergeFirst, h] at hr
      obtain ⟨r', hr', rfl⟩ := hr
      simp [ih r' hr']

/-- One `handleAddLog` step preserves the one-log-per-day invariant. -/
theorem handleAddLog_preserves (dayOf : String → String)
    (incoming : WorkoutLog) (l : List WorkoutLog)
    (h : atMostOnePerDay dayOf l) :
    atMostOnePerDay dayOf (handleAddLog dayOf incoming l) := by
  unfold handleAddLog
  cases hm : mergeFirst dayOf incoming l with
  | some r =>
    unfold atMostOnePerDay at h ⊢
    rw [mergeFirst_days dayOf incoming l r hm]
    exact h
  | none =>
    unfold atMostOnePerDay at h ⊢
    rw [List.map_cons]
    refine List.Nodup.cons ?_ h
    intro hmem
    obtain ⟨x, hx, hxd⟩ := List.mem_map.mp hmem
    exact (mergeFirst_none_iff dayOf incoming l).mp hm x hx hxd

/-- Claim C5: from any log list with at most one entry per calendar day,
any sequence of add-log operations preserves the invariant — a log for an
already-logged day is merged, never duplicated. -/
theorem oneLogPerDay_invariant :
    ∀ (dayOf : String → String) (newLogs init : List WorkoutLog),
      atMostOnePerDay dayOf init →
      atMostOnePerDay dayOf
        (newLogs.foldl (fun ls nl => handleAddLog dayOf nl ls) init) := by
  intro dayOf newLogs
  induction newLogs with
  | nil => intro init h; exact h
  | cons nl rest ih =>
    intro init h
    exact ih _ (handleAddLog_preserves dayOf nl init h)

/-- Concrete instantiation of `oneLogPerDay_invariant`: two submissions
for the same day starting from the empty list leave a single entry for
that day. -/
theorem oneLogPerDay_invariant_witness :
    atMostOnePerDay (fun s => s) [] ∧
    atMostOnePerDay (fun s => s)
      ([{ id := "1", date := "2024-03-01", title := "a", duration := 30,
          calories := 200, notes := "x", exercises := [] },
        { id := "2", date := "2024-03-01", title := "b", duration := 20,
          calories := 100, notes := "y", exercises := [] }].foldl
        (fun ls nl => handleAddLog (fun s => s) nl ls) []) :=
  ⟨by simp [atMostOnePerDay],
   oneLogPerDay_invariant (fun s => s) _ [] (by simp [atMostOnePerDay])⟩

/-- Claim C6: the cache layer absorbs its failures — `get` on a stored
entry whose payload does not parse (a `JSON.parse` failure) returns
absent instead of raising, and `set` under a storage write failure leaves
the store untouched (the write is a silent no-op). -/
theorem cache_error_absorption :
    (∀ (V : Type) (parse : String → Option V) (store : Cache.Store)
       (key s : String),
       Cache.getItem store ("fg_cache_" ++ key) = some s → parse s = none →
       Cache.get parse store key = none) ∧
    (∀ (trySetItem : Cache.Store → String → String → Option Cache.Store)
       (store : Cache.Store) (key val : String),
       trySetItem store ("fg_cache_" ++ key) val = none →
       Cache.set trySetItem store key val = store) := by
  constructor
  · intro V parse store key s h1 h2
    unfold Cache.get
    rw [h1]
    by_cases hs : s = "" <;> simp [hs, h2]
  · intro trySetItem store key val h
    unfold Cache.set
    rw [h]

/-- Concrete instantiation of `cache_error_absorption`: a corrupt stored
entry yields a miss, and a failing write leaves the store unchanged. -/
theorem cache_error_absorption_witness :
    Cache.getItem [("fg_cache_report_1", "corrupt")] ("fg_cache_" ++ "report_1") =
      some "corrupt" ∧
    ((fun _ => none) : String → Option ℕ) "corrupt" = none ∧
    Cache.get ((fun _ => none) : String → Option ℕ)
      [("fg_cache_report_1", "corrupt")] "report_1" = none ∧
    ((fun _ _ _ => none) : Cache.Store → String → String → Option Cache.Store)
      [] ("fg_cache_" ++ "k") "v" = none ∧
    Cache.set (fun _ _ _ => none) [] "k" "v" = [] :=
  ⟨by decide, rfl,
    cache_error_absorption.1 ℕ (fun _ => none) [("fg_cache_report_1", "corrupt")]
      "report_1" "corrupt" (by decide) rfl,
   rfl,
    cache_error_absorption.2 (fun _ _ _ => none) [] "k" "v" rfl⟩

/-- Membership in an `insertByTime` result. -/
theorem mem_insertByTime (timeOf : String → ℤ) (e b : WeightEntry) :
    ∀ l : List WeightEntry,
      b ∈ insertByTime timeOf e l ↔ b = e ∨ b ∈ l := by
  intro l
  induction l with
  | nil => simp [insertByTime]
  | cons x xs ih =>
    by_cases h : timeOf x.date ≤ timeOf e.date
    · simp only [insertByTime, if_pos h, List.mem_cons, ih]
      try tauto
    · simp only [insertByTime, if_neg h, List.mem_cons]
      try tauto

/-- Inserting with `insertByTime` keeps the list sorted (ascending by timestamp). -/
theorem insertByTime_pairwise (timeOf : String → ℤ) (e : WeightEntry) :
    ∀ l : List WeightEntry,
      l.Pairwise (fun a b => timeOf a.date ≤ timeOf b.date) →
      (insertByTime timeOf e l).Pairwise
        (fun a b => timeOf a.date ≤ timeOf b.date) := by
  intro l
  induction l with
  | nil => intro _; simp [insertByTime]
  | cons x xs ih =>
    intro hp
    rw [List.pairwise_cons] at hp
    by_cases h : timeOf x.date ≤ timeOf e.date
    · rw [insertByTime, if_pos h, List.pairwise_cons]
      refine ⟨?_, ih hp.2⟩
      intro b hb
      rcases (mem_insertByTime timeOf e b xs).mp hb with hbe | hbxs
      · exact hbe ▸ h
      · exact hp.1 b hbxs
    · rw [insertByTime, if_neg h, List.pairwise_cons]
      refine ⟨?_, List.pairwise_cons.mpr hp⟩
      intro b hb
      rcases List.mem_cons.mp hb with hbx | hbxs
      · rw [hbx]; omega
      · exact le_trans (le_of_lt (by omega)) (hp.1 b hbxs)

/-- Inserting with `insertByTime` is a permutation of consing. -/
theorem insertByTime_perm (timeOf : String → ℤ) (e : WeightEntry) :
    ∀ l : List WeightEntry, (insertByTime timeOf e l).Perm (e :: l) := by
  intro l
  induction l with
  | nil => simp [insertByTime]
  | cons x xs ih =>
    by_cases h : timeOf x.date ≤ timeOf e.date
    · rw [insertByTime, if_pos h]
      exact (ih.cons x).trans (List.Perm.swap e x xs)
    · rw [insertByTime, if_neg h]

/-- The fold of `insertByTime` sorts: the result is ascending and a
permutation of the input suffixed by the accumulator. -/
theorem sortFold_pairwise_perm (timeOf : String → ℤ) :
    ∀ (l acc : List WeightEntry),
      acc.Pairwise (fun a b => timeOf a.date ≤ timeOf b.date) →
      ((l.foldl (fun acc e => insertByTime timeOf e acc) acc).Pairwise
          (fun a b => timeOf a.date ≤ timeOf b.date) ∧
        (l.foldl (fun acc e => insertByTime timeOf e acc) acc).Perm (l ++ acc)) := by
  intro l
  induction l with
  | nil => intro acc h; exact ⟨h, List.Perm.refl acc⟩
  | cons e rest ih =>
    intro acc h
    have h' := insertByTime_pairwise timeOf e acc h
    obtain ⟨hp, hperm⟩ := ih (insertByTime timeOf e acc) h'
    refine ⟨hp, ?_⟩
    have step1 : (rest ++ insertByTime timeOf e acc).Perm (rest ++ (e :: acc)) :=
      List.Perm.append_left rest (insertByTime_perm timeOf e acc)
    have step2 : (rest ++ (e :: acc)).Perm (e :: (rest ++ acc)) :=
      List.perm_middle
    exact (hperm.trans step1).trans step2

/-- Claim C7: the weight-trend computation — zero delta with no history,
the baseline is the first entry of the ascending-by-date sort (which is a
sorted permutation of the history), the favorable (emerald) styling holds
exactly when `delta ≤ 0`, and on the spec's spot-check history
`[(2024-01-01, 80), (2024-02-01, 78)]` with current weight 77 the
baseline is 80 and the delta renders as `-3.0`, favorable. -/
theorem weightTrend_spec :
    (∀ (timeOf : String → ℤ) (current : ℚ), rawChange timeOf [] current = 0) ∧
    (∀ (timeOf : String → ℤ) (history : List WeightEntry),
       (sortWeightHistory timeOf history).Pairwise
         (fun a b => timeOf a.date ≤ timeOf b.date) ∧
       (sortWeightHistory timeOf history).Perm history) ∧
    (∀ (timeOf : String → ℤ) (history : List WeightEntry) (current : ℚ),
       changeColor timeOf history current = "text-emerald-500" ↔
         rawChange timeOf history current ≤ 0) ∧
    (∀ timeOf : String → ℤ,
       timeOf "2024-01-01" < timeOf "2024-02-01" →
       baselineWeight timeOf
           [⟨"2024-01-01", 80⟩, ⟨"2024-02-01", 78⟩] 77 = 80 ∧
       rawChange timeOf [⟨"2024-01-01", 80⟩, ⟨"2024-02-01", 78⟩] 77 = -3 ∧
       weightChangeStr timeOf [⟨"2024-01-01", 80⟩, ⟨"2024-02-01", 78⟩] 77 = "-3.0" ∧
       changeColor timeOf [⟨"2024-01-01", 80⟩, ⟨"2024-02-01", 78⟩] 77 =
         "text-emerald-500") := by
  refine ⟨?_, ?_, ?_, ?_⟩
  · intro timeOf current
    simp [rawChange, baselineWeight, sortWeightHistory]
  · intro timeOf history
    have h := sortFold_pairwise_perm timeOf history [] (by simp)
    exact ⟨h.1, by simpa using h.2⟩
  · intro timeOf history current
    unfold changeColor
    by_cases h : rawChange timeOf history current ≤ 0 <;> simp [h]
  · intro timeOf h
    have hsort : sortWeightHistory timeOf
        [⟨"2024-01-01", 80⟩, ⟨"2024-02-01", 78⟩] =
        [⟨"2024-01-01", 80⟩, ⟨"2024-02-01", 78⟩] := by
      simp only [sortWeightHistory, List.foldl, insertByTime]
      rw [if_pos (le_of_lt h)]
    have hbase : baselineWeight timeOf
        [⟨"2024-01-01", 80⟩, ⟨"2024-02-01", 78⟩] 77 = 80 := by
      unfold baselineWeight
      rw [hsort]
    have hraw : rawChange timeOf
        [⟨"2024-01-01", 80⟩, ⟨"2024-02-01", 78⟩] 77 = -3 := by
      unfold rawChange
      rw [hbase]
      norm_num
    refine ⟨hbase, hraw, ?_, ?_⟩
    · unfold weightChangeStr
      rw [hraw]
      have hn : (⌊10 * (-3 : ℚ) + 1/2⌋ : ℤ) = -30 := by norm_num
      simp only [jsToFixed1, hn]
      norm_num
      decide
    · unfold changeColor
      rw [hraw]
      norm_num

/-- Concrete instantiation of `weightTrend_spec` with an order-respecting
timestamp function on the two spot-check dates. -/
theorem weightTrend_spec_witness :
    ((fun s => if s = "2024-02-01" then (1:ℤ) else 0) "2024-01-01" <
       (fun s => if s = "2024-02-01" then (1:ℤ) else 0) "2024-02-01") ∧
    (baselineWeight (fun s => if s = "2024-02-01" then (1:ℤ) else 0)
         [⟨"2024-01-01", 80⟩, ⟨"2024-02-01", 78⟩] 77 = 80 ∧
     rawChange (fun s => if s = "2024-02-01" then (1:ℤ) else 0)
         [⟨"2024-01-01", 80⟩, ⟨"2024-02-01", 78⟩] 77 = -3 ∧
     weightChangeStr (fun s => if s = "2024-02-01" then (1:ℤ) else 0)
         [⟨"2024-01-01", 80⟩, ⟨"2024-02-01", 78⟩] 77 = "-3.0" ∧
     changeColor (fun s => if s = "2024-02-01" then (1:ℤ) else 0)
         [⟨"2024-01-01", 80⟩, ⟨"2024-02-01", 78⟩] 77 = "text-emerald-500") :=
  ⟨by decide, weightTrend_spec.2.2.2 _ (by decide)⟩

/-- The rounding `Math.round` is monotone. -/
theorem jround_mono {a b : ℚ} (h : a ≤ b) : jround a ≤ jround b := by
  unfold jround
  exact Int.floor_mono (by linarith)

/-- Every MET the simple estimator can pick is non-negative. -/
theorem simpleMET_nonneg (exs : List ExerciseLog) (tab : ExKind) :
    0 ≤ simpleMET exs tab := by
  unfold simpleMET
  split_ifs <;> norm_num

/-- Claim C8: for a fixed exercise list and fixed body weight, the calorie
estimate is monotone in the total session duration — in the segmented
active/rest model (active segments fixed, rest charged at MET 2.5,
including its zero-exercise flat fallback) and in the simple
composition-MET variant. -/
theorem calorieEstimate_monotone :
    (∀ (w : ℚ) (exs : List ExerciseLog) (d1 d2 : ℤ),
       0 ≤ w → d1 ≤ d2 →
       estimateSegmented w exs d1 ≤ estimateSegmented w exs d2) ∧
    (∀ (w : ℚ) (exs : List ExerciseLog) (tab : ExKind) (d1 d2 : ℤ),
       0 ≤ w → d1 ≤ d2 →
       estimateSimple w exs tab d1 ≤ estimateSimple w exs tab d2) := by
  constructor
  · intro w exs d1 d2 hw hd
    have hc : (d1 : ℚ) ≤ (d2 : ℚ) := by exact_mod_cast hd
    unfold estimateSegmented
    by_cases hexs : exs = []
    · rw [if_pos hexs, if_pos hexs]
      apply jround_mono
      have := mul_nonneg hw (sub_nonneg.mpr hc)
      linarith
    · rw [if_neg hexs, if_neg hexs]
      apply jround_mono
      have hr : max 0 ((d1 : ℚ) - (activeTotals w exs).2) ≤
          max 0 ((d2 : ℚ) - (activeTotals w exs).2) :=
        max_le_max le_rfl (by linarith)
      have := mul_nonneg hw (sub_nonneg.mpr hr)
      linarith
  · intro w exs tab d1 d2 hw hd
    have hc : (d1 : ℚ) ≤ (d2 : ℚ) := by exact_mod_cast hd
    unfold estimateSimple
    apply jround_mono
    have := mul_nonneg (mul_nonneg (simpleMET_nonneg exs tab) hw)
      (sub_nonneg.mpr hc)
    nlinarith [this]

/-- Concrete instantiation of `calorieEstimate_monotone`. -/
theorem calorieEstimate_monotone_witness :
    ((0 : ℚ) ≤ 75 ∧ (30 : ℤ) ≤ 60 ∧
      estimateSegmented 75 [] 30 ≤ estimateSegmented 75 [] 60) ∧
    ((0 : ℚ) ≤ 75 ∧ (30 : ℤ) ≤ 60 ∧
      estimateSimple 75 [] ExKind.strength 30 ≤
        estimateSimple 75 [] ExKind.strength 60) :=
  ⟨⟨by norm_num, by decide,
     calorieEstimate_monotone.1 75 [] 30 60 (by norm_num) (by decide)⟩,
   ⟨by norm_num, by decide,
     calorieEstimate_monotone.2 75 [] ExKind.strength 30 60 (by norm_num)
       (by decide)⟩⟩

/-- Claim C9 fails on the first `WorkoutLogger` variant (lines 31–41),
which has no `isManualCalorieRef`: after the user manually sets the
calorie field to 999, changing the duration re-fires the estimation
effect, which overwrites the field with the auto-estimate 375. -/
theorem manualOverride_counterexample :
    ([LoggerEvent.manualEdit 999, LoggerEvent.setDuration 60,
        LoggerEvent.autoEstimate].foldl loggerStepNoFlag
      { isManual := false, calories := 0, duration := 30, userWeight := 75,
        exercises := [], exType := ExKind.strength }).calories = 375 ∧
    (375 : ℤ) ≠ 999 := by
  constructor
  · simp only [List.foldl, loggerStepNoFlag, estimateFirst, jround]
    norm_num
  · decide

/-- Claim C9 (amended): in the `WorkoutLogger` variants that track manual
edits with `isManualCalorieRef` (the segmented and the simple-MET
variants, here the machine `loggerStep` over any estimator), a manual
edit sets the flag, no event ever clears it, and while it is set neither
the estimation effect nor any input change (duration, body weight,
exercises, exercise tab) writes the calorie field — only further manual
edits do. The first variant, which has no such flag, recomputes on any
duration change (see the counterexample). -/
theorem manualOverride_amended :
    (∀ (est : LoggerState → ℤ) (s : LoggerState) (v : ℤ),
       (loggerStep est s (LoggerEvent.manualEdit v)).isManual = true) ∧
    (∀ (est : LoggerState → ℤ) (tr : List LoggerEvent) (s : LoggerState),
       s.isManual = true → (tr.foldl (loggerStep est) s).isManual = true) ∧
    (∀ (est : LoggerState → ℤ) (s : LoggerState) (e : LoggerEvent),
       s.isManual = true → (∀ v, e ≠ LoggerEvent.manualEdit v) →
       (loggerStep est s e).calories = s.calories) := by
  refine ⟨?_, ?_, ?_⟩
  · intro est s v
    rfl
  · intro est tr
    induction tr with
    | nil => intro s h; exact h
    | cons e rest ih =>
      intro s h
      refine ih _ ?_
      cases e with
      | manualEdit v => rfl
      | setDuration v => exact h
      | setUserWeight w => exact h
      | setExercises es => exact h
      | setTab t => exact h
      | autoEstimate => simp [loggerStep, h]
  · intro est s e h hne
    cases e with
    | manualEdit v => exact absurd rfl (hne v)
    | setDuration v => rfl
    | setUserWeight w => rfl
    | setExercises es => rfl
    | setTab t => rfl
    | autoEstimate => simp [loggerStep, h]

/-- Concrete instantiation of `manualOverride_amended`: after a manual
edit the flag survives a duration change and an effect firing, and the
effect leaves the manually entered calories alone. -/
theorem manualOverride_amended_witness :
    ({ isManual := true, calories := 999, duration := 30, userWeight := 75,
        exercises := [], exType := ExKind.strength } : LoggerState).isManual = true ∧
    ([LoggerEvent.setDuration 60, LoggerEvent.autoEstimate].foldl
        (loggerStep fun s => estimateSegmented s.userWeight s.exercises s.duration)
        { isManual := true, calories := 999, duration := 30, userWeight := 75,
          exercises := [], exType := ExKind.strength }).isManual = true ∧
    ((loggerStep (fun s => estimateSegmented s.userWeight s.exercises s.duration)
        { isManual := true, calories := 999, duration := 30, userWeight := 75,
          exercises := [], exType := ExKind.strength }
        LoggerEvent.autoEstimate).calories =
      ({ isManual := true, calories := 999, duration := 30, userWeight := 75,
          exercises := [], exType := ExKind.strength } : LoggerState).calories) :=
  ⟨rfl,
   manualOverride_amended.2.1 (fun s => estimateSegmented s.userWeight s.exercises s.duration)
     [LoggerEvent.setDuration 60, LoggerEvent.autoEstimate] _ rfl,
   manualOverride_amended.2.2 (fun s => estimateSegmented s.userWeight s.exercises s.duration)
     _ LoggerEvent.autoEstimate rfl (fun _ h => LoggerEvent.noConfusion h)⟩

/-- The shared request pipeline always fulfills: the cache-hit path
resolves with the hit, and every outcome of the retried call — parsed
result, textless response, thrown error, exhausted retries — is converted
to a resolution by the trailing `.catch(() => null)`. -/
theorem aiRequest_fulfilled (V : Type)
    (trySetItem : Cache.Store → String → String → Option Cache.Store)
    (serialize : V → String) (store : Cache.Store) (key : String)
    (cached : Option V) (fn : ℕ → Except JsError (Option V)) :
    isFulfilled (aiRequest trySetItem serialize store key cached fn).1 = true := by
  unfold aiRequest
  cases cached with
  | some v => rfl
  | none =>
    rcases hc : callWithRetry fn 2 with ⟨o, n⟩
    cases o with
    | ok r => cases r <;> simp [hc, isFulfilled]
    | threw e => simp [hc, isFulfilled]
    | threwUndefined => simp [hc, isFulfilled]

/-- Claim C10: every AI content requester always fulfills and never
rejects — for every input and every behavior of the remote operation
(exhausted 429 retries, non-429 errors, parse failures, textless
responses) the promise resolves to a result object or `null`; no error
from the retry layer reaches the caller. -/
theorem aiRequesters_always_fulfill :
    (∀ (parse : String → Option WorkoutPlan) (serialize : WorkoutPlan → String)
       (trySetItem : Cache.Store → String → String → Option Cache.Store)
       (store : Cache.Store) (profile : UserProfile)
       (fn : ℕ → Except JsError (Option WorkoutPlan)),
       isFulfilled (generateFitnessPlan parse serialize trySetItem store profile fn).1 =
         true) ∧
    (∀ (parse : String → Option AIAdvice) (serialize : AIAdvice → String)
       (trySetItem : Cache.Store → String → String → Option Cache.Store)
       (store : Cache.Store) (logs : List WorkoutLog) (profile : UserProfile)
       (fn : ℕ → Except JsError (Option AIAdvice)),
       isFulfilled
           (analyzeWorkoutHistory parse serialize trySetItem store logs profile fn).1 =
         true) ∧
    (∀ (parse : String → Option TrainingReport) (serialize : TrainingReport → String)
       (trySetItem : Cache.Store → String → String → Option Cache.Store)
       (store : Cache.Store) (logs : List WorkoutLog) (profile : UserProfile)
       (fn : ℕ → Except JsError (Option TrainingReport)),
       isFulfilled
           (generateTrainingReport parse serialize trySetItem store logs profile fn).1 =
         true) ∧
    (∀ (parse : String → Option ExerciseInsight) (serialize : ExerciseInsight → String)
       (trySetItem : Cache.Store → String → String → Option Cache.Store)
       (store : Cache.Store) (exerciseName : String)
       (fn : ℕ → Except JsError (Option ExerciseInsight)),
       isFulfilled
           (getExerciseInsight parse serialize trySetItem store exerciseName fn).1 =
         true) := by
  refine ⟨?_, ?_, ?_, ?_⟩
  · intro parse serialize trySetItem store profile fn
    exact aiRequest_fulfilled _ _ _ _ _ _ _
  · intro parse serialize trySetItem store logs profile fn
    unfold analyzeWorkoutHistory
    by_cases hl : logs = []
    · simp [hl, isFulfilled]
    · rw [if_neg hl]
      exact aiRequest_fulfilled _ _ _ _ _ _ _
  · intro parse serialize trySetItem store logs profile fn
    unfold generateTrainingReport
    by_cases hl : logs = []
    · simp [hl, isFulfilled]
    · rw [if_neg hl]
      exact aiRequest_fulfilled _ _ _ _ _ _ _
  · intro parse serialize trySetItem store exerciseName fn
    exact aiRequest_fulfilled _ _ _ _ _ _ _
